import Mathlib

/-!
Verification of the colorschemer recolor pipeline, its LRU result cache and
the job/settings orchestration, shallowly embedded from the Python sources
(`colorschemer/clustering.py`, `colorschemer/utils/cache.py`,
`colorschemer/extractors/kmeans.py`, `colorschemer/components/app.py`).

Machine floats are modelled as exact rationals, images as lists of RGB
triples, and the Python dict backing the cache as an insertion-ordered
association list with unique keys.
-/

namespace Colorschemer

/-! ### The dict backing the image cache

`ImageCache.cache` is a Python `dict[str, Image.Image]`; we model it as an
insertion-ordered association list whose keys are unique (an invariant of
every reachable cache state).  Images themselves are opaque tokens. -/

abbrev Img := Nat

def dictContains : List (String × Img) → String → Bool
  | [], _ => false
  | p :: rest, k => p.1 == k || dictContains rest k

def dictGet : List (String × Img) → String → Option Img
  | [], _ => none
  | p :: rest, k => if p.1 == k then some p.2 else dictGet rest k

/-- `d[k] = v`: overwrite in place if present (a Python dict keeps the key's
position), append otherwise. -/

def dictSet : List (String × Img) → String → Img → List (String × Img)
  | [], k, v => [(k, v)]
  | p :: rest, k, v => if p.1 == k then (k, v) :: rest else p :: dictSet rest k v

/-- `del d[k]`. -/

def dictDelete : List (String × Img) → String → List (String × Img)
  | [], _ => []
  | p :: rest, k => if p.1 == k then dictDelete rest k else p :: dictDelete rest k

/-! ### LRU cache (src/colorschemer/utils/cache.py) -/

def CACHE_SIZE_LIMIT : Nat := 50

structure ImageCache where
  cache : List (String × Img)
  max_size : Nat
  access_order : List String
deriving DecidableEq

def ImageCache.init (max_size : Nat) : ImageCache :=
  { cache := [], max_size := max_size, access_order := [] }

/-- `ImageCache.get`: on a hit the key is moved to the most-recently-used
(tail) position of `access_order`. -/

def ImageCache.get (s : ImageCache) (key : String) : Option Img × ImageCache :=
  if dictContains s.cache key then
    (dictGet s.cache key,
     { s with access_order := s.access_order.erase key ++ [key] })
  else (none, s)

/-- `ImageCache.put`: refresh recency if present; otherwise evict the head of
`access_order` when at capacity; then store and append the key.  When
`access_order` is empty in the eviction branch the source raises `IndexError`
from `pop(0)` before mutating anything, so the state is left unchanged. -/

def ImageCache.put (s : ImageCache) (key : String) (image : Img) : ImageCache :=
  if dictContains s.cache key then
    { s with cache := dictSet s.cache key image,
             access_order := s.access_order.erase key ++ [key] }
  else if s.max_size ≤ s.cache.length then
    match s.access_order with
    | [] => s
    | oldest :: rest =>
      { s with cache := dictSet (dictDelete s.cache oldest) key image,
               access_order := rest ++ [key] }
  else
    { s with cache := dictSet s.cache key image,
             access_order := s.access_order ++ [key] }

inductive CacheOp where
  | get (k : String)
  | put (k : String) (v : Img)
deriving DecidableEq

def ImageCache.step (s : ImageCache) (op : CacheOp) : ImageCache :=
  match op with
  | .get k => (s.get k).2
  | .put k v => s.put k v

def ImageCache.run (s : ImageCache) (ops : List CacheOp) : ImageCache :=
  ops.foldl ImageCache.step s

/-- Structural invariant of the cache: `access_order` is a duplicate-free
enumeration of exactly the dict's keys, and the dict is bounded. -/

def ImageCache.Inv (s : ImageCache) : Prop :=
  s.access_order.Nodup ∧
  (s.cache.map Prod.fst).Perm s.access_order ∧
  s.cache.length ≤ s.max_size

def ImageCache.Reachable (s : ImageCache) : Prop :=
  ∃ (C : Nat) (ops : List CacheOp), (ImageCache.init C).run ops = s

/-! ### Application orchestration (src/colorschemer/components/app.py)

The UI-facing `App` class is modelled by the fields participating in the
recolor pipeline orchestration.  `clustering_params` records the
`(sample_size, n_colors)` pair the current `clustering_data` was computed
with (the data itself is opaque here); `displayed` models the preview's
`(current_theme, current_image)` pair; `current_processing_theme` is the
field of the same name guarded by `processing_lock`. -/

def MIN_SAMPLING_SIZE : Nat := 1000

def MAX_SAMPLING_SIZE : Nat := 100000

def MIN_COLOR_COUNT : Nat := 4

def MAX_COLOR_COUNT : Nat := 16

def MIN_MAX_ITERATIONS : Nat := 50

def MAX_MAX_ITERATIONS : Nat := 500

structure SettingsPanel where
  sampling_size : Nat
  color_count : Nat
  max_iterations : Nat
  preserve_brightness : Bool
deriving DecidableEq

structure App where
  sampling_size : Nat
  color_count : Nat
  max_iterations : Nat
  preserve_brightness : Bool
  random_state : Nat
  image_cache : ImageCache
  clustering_params : Option (Nat × Nat)
  settings_panel : SettingsPanel
  has_original_image : Bool
  current_processing_theme : Option String
  displayed : Option (String × Img)
deriving DecidableEq

/-- `App._update_processed_theme` (runs on the main thread, completion of a
background job): always store the result under the theme's key, then publish
to the preview only if the theme is still the current processing target. -/

def App.updateProcessedTheme (s : App) (theme_name : String) (image : Img) : App :=
  let cache1 := s.image_cache.put theme_name image
  if s.current_processing_theme = some theme_name then
    { s with image_cache := cache1,
             current_processing_theme := none,
             displayed := some (theme_name, image) }
  else
    { s with image_cache := cache1 }

/-- `App.load_theme_image`: bail out without an image/clustering data; on a
cache hit display the cached image (the hit also refreshes recency); on a
miss mark the theme as the current processing target and submit a job. -/

def App.loadThemeImage (s : App) (theme_name : String) : App :=
  if s.has_original_image = false ∨ s.clustering_params = none then s
  else
    match s.image_cache.get theme_name with
    | (some img, c1) => { s with image_cache := c1, displayed := some (theme_name, img) }
    | (none, c1) => { s with image_cache := c1, current_processing_theme := some theme_name }

/-- `App.apply_settings`, with the slider/checkbox readings and the theme
list's current theme passed in as arguments.  Faithful to the source: the
settings panel's fields are assigned from the already-updated `self` fields
*before* the `!=` comparison that guards re-clustering and whole-cache
invalidation, so that branch's condition can never hold. -/

def App.applySettings (s : App) (current_theme : Option String)
    (sampling_size color_count max_iterations : Nat) (preserve_brightness : Bool) : App :=
  if sampling_size < MIN_SAMPLING_SIZE ∨ MAX_SAMPLING_SIZE < sampling_size then s
  else if color_count < MIN_COLOR_COUNT ∨ MAX_COLOR_COUNT < color_count then s
  else if max_iterations < MIN_MAX_ITERATIONS ∨ MAX_MAX_ITERATIONS < max_iterations then s
  else
    let s1 := { s with sampling_size := sampling_size, color_count := color_count,
                       max_iterations := max_iterations,
                       preserve_brightness := preserve_brightness }
    let s2 := { s1 with settings_panel :=
      { sampling_size := s1.sampling_size, color_count := s1.color_count,
        max_iterations := s1.max_iterations,
        preserve_brightness := s1.preserve_brightness } }
    let s3 :=
      if (s2.sampling_size ≠ s2.settings_panel.sampling_size ∨
          s2.color_count ≠ s2.settings_panel.color_count) ∧
          s2.has_original_image = true then
        { s2 with clustering_params := some (s2.sampling_size, s2.color_count),
                  image_cache := ImageCache.init CACHE_SIZE_LIMIT }
      else s2
    match current_theme with
    | none => s3
    | some t =>
      let s4 :=
        if dictContains s3.image_cache.cache t then
          { s3 with image_cache :=
            { s3.image_cache with cache := dictDelete s3.image_cache.cache t,
                                  access_order := s3.image_cache.access_order.erase t } }
        else s3
      s4.loadThemeImage t

/-! ### Color pipeline (src/colorschemer/clustering.py)

Float arithmetic is modelled exactly over `ℚ`; an RGB color / pixel is a
triple of rationals, a pixel matrix a list of pixels (row-major, the `h × w`
reshape being irrelevant to per-pixel arithmetic). -/

abbrev RGB := ℚ × ℚ × ℚ

def rgb0 : RGB := (0, 0, 0)

/-- `np.mean(color)` over the three channels. -/

def brightness (c : RGB) : ℚ := (c.1 + c.2.1 + c.2.2) / 3

/-- Squared Euclidean distance `np.sum(diff * diff)` in RGB space. -/

def sqDist (a b : RGB) : ℚ :=
  (a.1 - b.1) ^ 2 + (a.2.1 - b.2.1) ^ 2 + (a.2.2 - b.2.2) ^ 2

/-- Tail of `np.argmin`: first index of the minimum value. -/

def argminGo : List ℚ → ℚ → Nat → Nat → Nat
  | [], _, best, _ => best
  | y :: rest, bv, best, i =>
    if y < bv then argminGo rest y i (i + 1) else argminGo rest bv best (i + 1)

/-- `np.argmin`: first index attaining the minimum; `none` on an empty array
(where NumPy raises `ValueError`). -/

def argminIdx : List ℚ → Option Nat
  | [] => none
  | x :: rest => some (argminGo rest x 0 1)

/-- `np.argsort` on a 1-d float array: the indices `0..n` ordered by
ascending key (stable order used for ties). -/

def argsort (keys : List ℚ) : List Nat :=
  (List.range keys.length).mergeSort (fun i j => decide (keys.getD i 0 ≤ keys.getD j 0))

structure ClusteringData where
  pixels_float : List RGB
  labels : List Nat
  dominant_colors : List RGB
deriving DecidableEq

/-- `dom_order = np.argsort(dom_brightness)` of `apply_color_scheme`. -/

def domOrder (dominant_colors : List RGB) : List Nat :=
  argsort (dominant_colors.map brightness)

/-- `theme_order = np.argsort(theme_brightness)` of `apply_color_scheme`. -/

def themeOrder (color_scheme : List RGB) : List Nat :=
  argsort (color_scheme.map brightness)

/-- `min_len = min(len(dom_order), len(theme_order))`. -/

def minLen (dominant_colors color_scheme : List RGB) : Nat :=
  min (domOrder dominant_colors).length (themeOrder color_scheme).length

/-- The rank-based phase
`mapping[dom_order[:min_len]] = color_scheme[theme_order[:min_len]]`, as the
sequence of element writes the fancy-indexing assignment performs.
`np.empty_like` yields uninitialized storage, modelled by `rgb0` slots. -/

def rankMapping (dominant_colors color_scheme : List RGB) : List RGB :=
  (List.range (minLen dominant_colors color_scheme)).foldl
    (fun m i => m.set ((domOrder dominant_colors).getD i 0)
      (color_scheme.getD ((themeOrder color_scheme).getD i 0) rgb0))
    (dominant_colors.map (fun _ => rgb0))

/-- One iteration of the excess loop `for i in range(min_len, len(dom_order))`
(`j` counts from `0`, so `i = min_len + j`): assign the palette color of
minimum squared distance; `none` models the `ValueError` that `np.argmin`
raises on an empty distance array. -/

def excessStep (dominant_colors color_scheme : List RGB) (m : List RGB) (j : Nat) :
    Option (List RGB) :=
  let dom_idx := (domOrder dominant_colors).getD (minLen dominant_colors color_scheme + j) 0
  match argminIdx (color_scheme.map
      (fun c => sqDist c (dominant_colors.getD dom_idx rgb0))) with
  | none => none
  | some mi => some (m.set dom_idx (color_scheme.getD mi rgb0))

/-- The palette-mapping phase of `apply_color_scheme` (clustering.py lines
53–73): rank-based assignment over the first `min(K, M)` brightness ranks,
then a nearest-palette-color assignment for each excess center. -/

def paletteMapping (dominant_colors color_scheme : List RGB) : Option (List RGB) :=
  (List.range ((domOrder dominant_colors).length - minLen dominant_colors color_scheme)).foldlM
    (excessStep dominant_colors color_scheme)
    (rankMapping dominant_colors color_scheme)

/-- `np.clip(x, 0, 255)`. -/

def clip255 (x : ℚ) : ℚ := min 255 (max 0 x)

/-- One pixel of the brightness-preservation pass (clustering.py lines
77–83): scale every remapped channel by `orig_brightness / max(new_brightness,
1e-6)` and clip to `[0, 255]`. -/

def adjustPixel (orig newp : RGB) : RGB :=
  let original_brightness := brightness orig
  let new_brightness := max (brightness newp) (1 / 1000000)
  let ratio := original_brightness / new_brightness
  (clip255 (newp.1 * ratio), clip255 (newp.2.1 * ratio), clip255 (newp.2.2 * ratio))

def brightnessPreserve (orig newp : List RGB) : List RGB :=
  List.zipWith adjustPixel orig newp

/-- `apply_color_scheme` at the pixel-matrix level: build the center→palette
mapping, reindex every pixel's label through it, then optionally run the
brightness-preservation pass.  (The source finally reshapes and casts the
matrix to `uint8`; see `applyColorSchemeImage`.) -/

def applyColorScheme (clustering_data : ClusteringData) (color_scheme : List RGB)
    (preserve_brightness : Bool) : Option (List RGB) :=
  match paletteMapping clustering_data.dominant_colors color_scheme with
  | none => none
  | some mapping =>
    let new_pixels := clustering_data.labels.map (fun l => mapping.getD l rgb0)
    some (if preserve_brightness then
            brightnessPreserve clustering_data.pixels_float new_pixels
          else new_pixels)

/-- `astype(np.uint8)` of a channel value already clipped to `[0, 255]`:
truncation toward zero. -/

def quantU8 (x : ℚ) : Nat := (Int.toNat ⌊x⌋) % 256

/-- `apply_color_scheme` including the final `uint8` image assembly. -/

def applyColorSchemeImage (clustering_data : ClusteringData) (color_scheme : List RGB)
    (preserve_brightness : Bool) : Option (List (Nat × Nat × Nat)) :=
  (applyColorScheme clustering_data color_scheme preserve_brightness).map
    (List.map (fun p => (quantU8 p.1, quantU8 p.2.1, quantU8 p.2.2)))

/-- Whether the scaled channels of one remapped pixel already lie in
`[0, 255]`, i.e. the final `np.clip` would change nothing there. -/

def scaledInRangeB (orig newp : RGB) : Bool :=
  let ratio := brightness orig / max (brightness newp) (1 / 1000000)
  decide (0 ≤ newp.1 * ratio) && decide (newp.1 * ratio ≤ 255) &&
  decide (0 ≤ newp.2.1 * ratio) && decide (newp.2.1 * ratio ≤ 255) &&
  decide (0 ≤ newp.2.2 * ratio) && decide (newp.2.2 * ratio ≤ 255)

/-- No output channel of the brightness pass requires clipping. -/

def noClipNeeded (orig newp : List RGB) : Bool :=
  (List.zip orig newp).all (fun p => scaledInRangeB p.1 p.2)

/-- Mean per-pixel brightness of a pixel matrix. -/

def meanBrightness (px : List RGB) : ℚ := (px.map brightness).sum / px.length

/-! ### Cluster extraction (src/colorschemer/clustering.py lines 10–40)

`compute_image_clusters` delegates the fit itself to
`sklearn.cluster.KMeans`, an external library; the fit is therefore a
parameter `fit sample_pixels n_clusters random_state max_iter` returning the
cluster centers.  The source hard-codes `random_state=42` and `max_iter=100`
in that call.  When the pixel count exceeds `sample_size` the source draws a
sample with an unseeded fresh rng; the drawn indices enter as the `rng_sample`
oracle.  The source performs no input validation, so the `Except` never
carries an error. -/

inductive ExtractError where
  | invalidInput
deriving DecidableEq

/-- `kmeans.predict` for one pixel: nearest fitted center by squared
Euclidean distance, lowest index on ties. -/

def predictLabel (p : RGB) (centers : List RGB) : Nat :=
  (argminIdx (centers.map (fun ctr => sqDist p ctr))).getD 0

def computeImageClusters (fit : List RGB → Nat → Nat → Nat → List RGB)
    (rng_sample : List Nat) (pixels : List RGB) (sample_size n_colors : Nat) :
    Except ExtractError ClusteringData :=
  let sample_pixels :=
    if sample_size < pixels.length then rng_sample.map (fun i => pixels.getD i rgb0)
    else pixels
  let dominant_colors := fit sample_pixels n_colors 42 100
  let labels := pixels.map (fun p => predictLabel p dominant_colors)
  Except.ok ⟨pixels, labels, dominant_colors⟩

/-- The clustering call `App.load_original_image` makes (app.py lines
269–274): only `self.sampling_size` and `self.color_count` are passed on;
`self.max_iterations` and `self.random_state` do not reach it. -/

def App.loadOriginalClusters (s : App) (fit : List RGB → Nat → Nat → Nat → List RGB)
    (rng_sample : List Nat) (pixels : List RGB) : Except ExtractError ClusteringData :=
  computeImageClusters fit rng_sample pixels s.sampling_size s.color_count

/-! ### Cache keys (src/colorschemer/extractors/kmeans.py lines 90–100) -/

def pyBoolRepr (b : Bool) : String := if b then "True" else "False"

/-- `KmeansExtractor.get_cache_key`. -/

def kmeansGetCacheKey (sample_size n_colors max_iterations random_state : Nat)
    (preserve_brightness : Bool) : String :=
  "kmeans_" ++ toString sample_size ++ "_" ++ toString n_colors ++ "_" ++
    toString max_iterations ++ "_" ++ toString random_state ++ "_" ++
    pyBoolRepr preserve_brightness

/-- The cache-key format the specification describes (built from the spec's
words, for comparison with what the code actually uses):
`{theme_identifier}_{method_name}_{sample_size}_{n_colors}_{max_iterations}_{random_state}_{preserve_brightness}`. -/

def specFormatCacheKey (theme_identifier method_name : String)
    (sample_size n_colors max_iterations random_state : Nat)
    (preserve_brightness : Bool) : String :=
  theme_identifier ++ "_" ++ method_name ++ "_" ++ toString sample_size ++ "_" ++
    toString n_colors ++ "_" ++ toString max_iterations ++ "_" ++
    toString random_state ++ "_" ++ pyBoolRepr preserve_brightness

/-- The rank-phase writes as explicit (index, value) pairs. -/

def rankPairs (dc cs : List RGB) : List (Nat × RGB) :=
  (List.range (minLen dc cs)).map
    (fun i => ((domOrder dc).getD i 0, cs.getD ((themeOrder cs).getD i 0) rgb0))

/-- The excess-phase writes as explicit (index, value) pairs. -/

def excessPairs (dc cs : List RGB) : List (Nat × RGB) :=
  (List.range ((domOrder dc).length - minLen dc cs)).map
    (fun j => ((domOrder dc).getD (minLen dc cs + j) 0,
      cs.getD ((argminIdx (cs.map
        (fun c => sqDist c (dc.getD ((domOrder dc).getD (minLen dc cs + j) 0) rgb0)))).getD 0)
        rgb0))

/-- The full behaviour C1 asserts for the palette-mapping step: the mapping
exists, `dom_order`/`theme_order` are ascending-brightness rankings of the
center resp. palette indices, centers of rank `i < min(K, M)` take the rank-`i`
palette color, excess centers take a squared-distance-minimizing palette
color, for `K = M` the mapping is a bijection onto the palette, and for
`K ≤ M` only the `K` lowest-ranked palette colors are used. -/

def RankMappingSpec (dc cs : List RGB) : Prop :=
  ∃ mapping, paletteMapping dc cs = some mapping ∧
    mapping.length = dc.length ∧
    (domOrder dc).Perm (List.range dc.length) ∧
    (themeOrder cs).Perm (List.range cs.length) ∧
    (domOrder dc).Pairwise
      (fun i j => brightness (dc.getD i rgb0) ≤ brightness (dc.getD j rgb0)) ∧
    (themeOrder cs).Pairwise
      (fun i j => brightness (cs.getD i rgb0) ≤ brightness (cs.getD j rgb0)) ∧
    (∀ i < min dc.length cs.length,
      mapping.getD ((domOrder dc).getD i 0) rgb0
        = cs.getD ((themeOrder cs).getD i 0) rgb0) ∧
    (∀ i, min dc.length cs.length ≤ i → i < dc.length →
      ∃ m, m < cs.length ∧ mapping.getD ((domOrder dc).getD i 0) rgb0 = cs.getD m rgb0 ∧
        ∀ j < cs.length,
          sqDist (cs.getD m rgb0) (dc.getD ((domOrder dc).getD i 0) rgb0)
            ≤ sqDist (cs.getD j rgb0) (dc.getD ((domOrder dc).getD i 0) rgb0)) ∧
    (dc.length = cs.length → mapping.Perm cs) ∧
    (dc.length ≤ cs.length → ∀ jdx < dc.length,
      ∃ i, i < min dc.length cs.length ∧
        mapping.getD jdx rgb0 = cs.getD ((themeOrder cs).getD i 0) rgb0)

/-- The cache invariant C9 asserts: `access_order` holds exactly the dict's
keys, each once; its length equals the entry count, which never exceeds the
capacity; and a `get` of a stored key or a `put` leaves the touched key in
the most-recently-used (last) position, so the list is ordered oldest-first. -/

def CacheInvariantSpec (s : ImageCache) : Prop :=
  s.access_order.Nodup ∧
  (∀ k, k ∈ s.access_order ↔ dictContains s.cache k = true) ∧
  s.access_order.length = s.cache.length ∧
  s.cache.length ≤ s.max_size ∧
  (∀ k, dictContains s.cache k = true → ((s.get k).2).access_order.getLast? = some k) ∧
  (∀ k v, 1 ≤ s.max_size → (s.put k v).access_order.getLast? = some k)

/-- A concrete application state with the default parameters, two cached
themes and `themeB` selected, used to exercise the claims on concrete
inputs. -/

def sampleApp : App :=
  { sampling_size := 50000, color_count := 8, max_iterations := 100,
    preserve_brightness := true, random_state := 42,
    image_cache := { cache := [("themeA", 1), ("themeB", 2)], max_size := 50,
                     access_order := ["themeA", "themeB"] },
    clustering_params := some (50000, 8),
    settings_panel := { sampling_size := 50000, color_count := 8, max_iterations := 100,
                        preserve_brightness := true },
    has_original_image := true, current_processing_theme := none,
    displayed := some ("themeB", 2) }

/-! ### Association-list lemmas -/

theorem dictContains_iff_mem (d : List (String × Img)) (k : String) :
    dictContains d k = true ↔ k ∈ d.map Prod.fst := by
  induction d with
  | nil => simp [dictContains]
  | cons p rest ih =>
    simp only [dictContains, Bool.or_eq_true, beq_iff_eq, ih, List.map_cons, List.mem_cons]
    constructor
    · rintro (h | h)
      exacts [Or.inl h.symm, Or.inr h]
    · rintro (h | h)
      exacts [Or.inl h.symm, Or.inr h]

theorem dictGet_eq_none_of_not_contains (d : List (String × Img)) (k : String)
    (h : dictContains d k = false) : dictGet d k = none := by
  induction d with
  | nil => simp [dictGet]
  | cons p rest ih =>
    simp only [dictContains, Bool.or_eq_false_iff] at h
    simp [dictGet, h.1, ih h.2]

theorem keys_dictSet_pos (d : List (String × Img)) (k : String) (v : Img)
    (h : dictContains d k = true) :
    (dictSet d k v).map Prod.fst = d.map Prod.fst := by
  induction d with
  | nil => simp [dictContains] at h
  | cons p rest ih =>
    by_cases hp : (p.1 == k) = true
    · have hpk : p.1 = k := by simpa using hp
      simp only [dictSet, hp, if_true]
      simp [hpk]
    · have h2 : dictContains rest k = true := by
        simp only [dictContains, Bool.or_eq_true] at h
        exact h.resolve_left hp
      simp [dictSet, hp, ih h2]

theorem keys_dictSet_neg (d : List (String × Img)) (k : String) (v : Img)
    (h : dictContains d k = false) :
    (dictSet d k v).map Prod.fst = d.map Prod.fst ++ [k] := by
  induction d with
  | nil => simp [dictSet]
  | cons p rest ih =>
    simp only [dictContains, Bool.or_eq_false_iff] at h
    simp [dictSet, h.1, ih h.2]

theorem keys_dictDelete (d : List (String × Img)) (k : String) :
    (dictDelete d k).map Prod.fst = (d.map Prod.fst).filter (fun x => !(x == k)) := by
  induction d with
  | nil => rfl
  | cons p rest ih =>
    by_cases hp : (p.1 == k) = true
    · simp [dictDelete, hp, ih, List.filter_cons]
    · simp [dictDelete, hp, ih, List.filter_cons]

theorem dictGet_dictSet_self (d : List (String × Img)) (k : String) (v : Img) :
    dictGet (dictSet d k v) k = some v := by
  induction d with
  | nil => simp [dictSet, dictGet]
  | cons p rest ih =>
    by_cases hp : p.1 == k
    · simp [dictSet, hp, dictGet]
    · simp [dictSet, hp, dictGet, ih]

theorem dictContains_dictSet_self (d : List (String × Img)) (k : String) (v : Img) :
    dictContains (dictSet d k v) k = true := by
  induction d with
  | nil => simp [dictSet, dictContains]
  | cons p rest ih =>
    by_cases hp : p.1 == k
    · simp [dictSet, hp, dictContains]
    · simp [dictSet, hp, dictContains, ih]

theorem dictContains_dictSet_ne (d : List (String × Img)) (k k' : String) (v : Img)
    (h : k' ≠ k) : dictContains (dictSet d k v) k' = dictContains d k' := by
  induction d with
  | nil => simp [dictSet, dictContains, Ne.symm h]
  | cons p rest ih =>
    by_cases hp : (p.1 == k) = true
    · have hpk : p.1 = k := by simpa using hp
      simp [dictSet, hp, dictContains, hpk]
    · simp [dictSet, hp, dictContains, ih]

theorem dictContains_dictDelete (d : List (String × Img)) (k k' : String) :
    dictContains (dictDelete d k) k' = (dictContains d k' && !(k' == k)) := by
  induction d with
  | nil => simp [dictDelete, dictContains]
  | cons p rest ih =>
    by_cases hp : (p.1 == k) = true
    · have hpk : p.1 = k := by simpa using hp
      by_cases hk : k' = k
      · subst hk; simp [dictDelete, hp, dictContains, ih, hpk]
      · have hkk : (k == k') = false := beq_eq_false_iff_ne.mpr (Ne.symm hk)
        have hkk' : (k' == k) = false := beq_eq_false_iff_ne.mpr hk
        simp [dictDelete, hp, dictContains, ih, hpk, hkk, hkk']
    · by_cases hk : k' = k
      · subst hk
        have hpk : (p.1 == k') = false := by simpa using hp
        simp [dictDelete, hp, dictContains, ih, hpk]
      · have hkk' : (k' == k) = false := beq_eq_false_iff_ne.mpr hk
        simp [dictDelete, hp, dictContains, ih, hkk', Bool.and_or_distrib_right]

theorem length_dictSet_pos (d : List (String × Img)) (k : String) (v : Img)
    (h : dictContains d k = true) : (dictSet d k v).length = d.length := by
  have := keys_dictSet_pos d k v h
  have h1 : ((dictSet d k v).map Prod.fst).length = (d.map Prod.fst).length := by rw [this]
  simpa using h1

theorem length_dictSet_neg (d : List (String × Img)) (k : String) (v : Img)
    (h : dictContains d k = false) : (dictSet d k v).length = d.length + 1 := by
  have := keys_dictSet_neg d k v h
  have h1 : ((dictSet d k v).map Prod.fst).length = (d.map Prod.fst ++ [k]).length := by rw [this]
  simpa using h1

/-! ### Cache invariant preservation -/

theorem nodup_append_single {l : List String} {a : String} (h : l.Nodup) (ha : a ∉ l) :
    (l ++ [a]).Nodup := by
  simp [List.nodup_append, h, ha]

theorem perm_erase_append_single {l : List String} {a : String} (h : a ∈ l) :
    l.Perm (l.erase a ++ [a]) :=
  (List.perm_cons_erase h).trans (List.perm_append_singleton a (l.erase a)).symm

theorem ImageCache.inv_step (s : ImageCache) (op : CacheOp) (h : s.Inv) :
    (s.step op).Inv := by
  obtain ⟨hnd, hperm, hlen⟩ := h
  cases op with
  | get k =>
    simp only [ImageCache.step, ImageCache.get]
    by_cases hc : dictContains s.cache k = true
    · simp only [hc, if_true]
      have hkao : k ∈ s.access_order := hperm.mem_iff.mp ((dictContains_iff_mem _ _).mp hc)
      exact ⟨nodup_append_single (hnd.erase k) hnd.not_mem_erase,
        hperm.trans (perm_erase_append_single hkao), hlen⟩
    · simp only [Bool.not_eq_true] at hc
      simp only [hc, Bool.false_eq_true, if_false]
      exact ⟨hnd, hperm, hlen⟩
  | put k v =>
    simp only [ImageCache.step, ImageCache.put]
    by_cases hc : dictContains s.cache k = true
    · simp only [hc, if_true]
      have hkao : k ∈ s.access_order := hperm.mem_iff.mp ((dictContains_iff_mem _ _).mp hc)
      refine ⟨nodup_append_single (hnd.erase k) hnd.not_mem_erase, ?_, ?_⟩
      · rw [keys_dictSet_pos _ _ _ hc]
        exact hperm.trans (perm_erase_append_single hkao)
      · rw [length_dictSet_pos _ _ _ hc]; exact hlen
    · simp only [Bool.not_eq_true] at hc
      simp only [hc, Bool.false_eq_true, if_false]
      have hkk : k ∉ s.cache.map Prod.fst := fun hm => by
        rw [(dictContains_iff_mem _ _).mpr hm] at hc; exact Bool.true_eq_false.mp hc
      have hkao : k ∉ s.access_order := fun hm => hkk (hperm.mem_iff.mpr hm)
      by_cases hfull : s.max_size ≤ s.cache.length
      · simp only [hfull, if_true]
        cases hao : s.access_order with
        | nil => exact ⟨hnd, hperm, hlen⟩
        | cons oldest rest =>
          have hndc : (oldest :: rest).Nodup := hao ▸ hnd
          have holdkeys : oldest ∈ s.cache.map Prod.fst :=
            hperm.mem_iff.mpr (by rw [hao]; exact List.mem_cons_self _ _)
          have holdc : dictContains s.cache oldest = true :=
            (dictContains_iff_mem _ _).mpr holdkeys
          have hkdel : dictContains (dictDelete s.cache oldest) k = false := by
            rw [dictContains_dictDelete]
            simp [hc]
          have hkeys' : (dictSet (dictDelete s.cache oldest) k v).map Prod.fst
              = (s.cache.map Prod.fst).filter (fun x => !(x == oldest)) ++ [k] := by
            rw [keys_dictSet_neg _ _ _ hkdel, keys_dictDelete]
          have hfrest : ((oldest :: rest).filter (fun x => !(x == oldest))) = rest := by
            rw [List.filter_cons]
            simp only [beq_self_eq_true, Bool.not_true, Bool.false_eq_true, if_false]
            exact List.filter_eq_self.mpr fun a ha => by
              have : a ≠ oldest := fun hae => (List.nodup_cons.mp hndc).1 (hae ▸ ha)
              simp [this]
          have hpermf : ((s.cache.map Prod.fst).filter (fun x => !(x == oldest))).Perm rest := by
            have := hperm.filter (fun x => !(x == oldest))
            rw [hao, hfrest] at this
            exact this
          have hknr : k ∉ rest := fun hm => hkao (by rw [hao]; exact List.mem_cons_of_mem _ hm)
          refine ⟨nodup_append_single (List.nodup_cons.mp hndc).2 hknr, ?_, ?_⟩
          · rw [hkeys']
            exact hpermf.append_right [k]
          · show (dictSet (dictDelete s.cache oldest) k v).length ≤ s.max_size
            have h1 : (dictSet (dictDelete s.cache oldest) k v).length
                = (dictDelete s.cache oldest).length + 1 :=
              length_dictSet_neg _ _ _ hkdel
            have h2 : (dictDelete s.cache oldest).length = rest.length := by
              have hmap : ((dictDelete s.cache oldest).map Prod.fst).length = rest.length := by
                rw [keys_dictDelete]; exact hpermf.length_eq
              simpa using hmap
            have h3 : rest.length + 1 = s.access_order.length := by rw [hao]; rfl
            have h4 : s.access_order.length = s.cache.length := by
              simpa using hperm.length_eq.symm
            omega
      · simp only [hfull, if_false]
        refine ⟨nodup_append_single hnd hkao, ?_, ?_⟩
        · rw [keys_dictSet_neg _ _ _ hc]
          exact hperm.append_right [k]
        · show (dictSet s.cache k v).length ≤ s.max_size
          rw [length_dictSet_neg _ _ _ hc]
          omega

theorem ImageCache.inv_run (s : ImageCache) (ops : List CacheOp) (h : s.Inv) :
    (s.run ops).Inv := by
  induction ops generalizing s with
  | nil => exact h
  | cons op rest ih => exact ih _ (s.inv_step op h)

theorem ImageCache.inv_init (C : Nat) : (ImageCache.init C).Inv :=
  ⟨List.nodup_nil, List.Perm.refl _, Nat.zero_le _⟩

theorem ImageCache.inv_of_reachable (s : ImageCache) (h : s.Reachable) : s.Inv := by
  obtain ⟨C, ops, rfl⟩ := h
  exact ImageCache.inv_run _ _ (ImageCache.inv_init C)

/-! ### Properties of `argminIdx` and `argsort` -/

theorem argminGo_spec (rest : List ℚ) : ∀ (xs : List ℚ) (bv : ℚ) (best i : Nat),
    xs.drop i = rest → best < xs.length → xs.getD best 0 = bv →
    (∀ j < i, bv ≤ xs.getD j 0) →
    argminGo rest bv best i < xs.length ∧
      ∀ j < xs.length, xs.getD (argminGo rest bv best i) 0 ≤ xs.getD j 0 := by
  induction rest with
  | nil =>
    intro xs bv best i hdrop hbest hval hmin
    have hlen : xs.length ≤ i := by
      have := congrArg List.length hdrop
      simp only [List.length_drop, List.length_nil] at this
      omega
    refine ⟨by simpa [argminGo] using hbest, ?_⟩
    intro j hj
    simp only [argminGo]
    rw [hval]
    exact hmin j (lt_of_lt_of_le hj hlen)
  | cons y rest' ih =>
    intro xs bv best i hdrop hbest hval hmin
    have hi : i < xs.length := by
      by_contra hcon
      push_neg at hcon
      rw [List.drop_eq_nil_of_le hcon] at hdrop
      exact List.cons_ne_nil _ _ hdrop.symm
    have hyi : xs.getD i 0 = y := by
      have h0 : (xs.drop i)[0]? = some y := by rw [hdrop]; simp
      rw [List.getElem?_drop] at h0
      simp only [Nat.add_zero] at h0
      simp [List.getD_eq_getElem?_getD, h0]
    have hdrop' : xs.drop (i + 1) = rest' := by
      have h1 : xs.drop (i + 1) = (xs.drop i).drop 1 := by
        rw [List.drop_drop]
      rw [h1, hdrop]
      rfl
    by_cases hlt : y < bv
    · simp only [argminGo, hlt, if_true]
      refine ih xs y i (i + 1) hdrop' hi hyi ?_
      intro j hj
      rcases Nat.lt_succ_iff_lt_or_eq.mp hj with hj' | hj'
      · exact le_of_lt (lt_of_lt_of_le hlt (hmin j hj'))
      · subst hj'
        rw [hyi]
    · simp only [argminGo, hlt, if_false]
      refine ih xs bv best (i + 1) hdrop' hbest hval ?_
      intro j hj
      rcases Nat.lt_succ_iff_lt_or_eq.mp hj with hj' | hj'
      · exact hmin j hj'
      · subst hj'
        rw [hyi]
        exact le_of_not_lt hlt

theorem argminIdx_spec (xs : List ℚ) (h : xs ≠ []) :
    ∃ m, argminIdx xs = some m ∧ m < xs.length ∧
      ∀ j < xs.length, xs.getD m 0 ≤ xs.getD j 0 := by
  match xs, h with
  | x :: rest, _ =>
    refine ⟨argminGo rest x 0 1, rfl, ?_⟩
    refine argminGo_spec rest (x :: rest) x 0 1 rfl (by simp) rfl ?_
    intro j hj
    interval_cases j
    simp [List.getD]

theorem argsort_perm (keys : List ℚ) : (argsort keys).Perm (List.range keys.length) :=
  List.mergeSort_perm _ _

theorem argsort_length (keys : List ℚ) : (argsort keys).length = keys.length := by
  have := (argsort_perm keys).length_eq
  simpa using this

theorem argsort_nodup (keys : List ℚ) : (argsort keys).Nodup :=
  (argsort_perm keys).nodup_iff.mpr (List.nodup_range _)

theorem mem_argsort (keys : List ℚ) (i : Nat) : i ∈ argsort keys ↔ i < keys.length := by
  rw [(argsort_perm keys).mem_iff, List.mem_range]

theorem argsort_sorted (keys : List ℚ) :
    (argsort keys).Pairwise (fun i j => keys.getD i 0 ≤ keys.getD j 0) := by
  have h := @List.sorted_mergeSort Nat
    (fun i j => decide (keys.getD i 0 ≤ keys.getD j 0))
    (fun a b c hab hbc =>
      decide_eq_true (le_trans (of_decide_eq_true hab) (of_decide_eq_true hbc)))
    (fun a b => by
      simp only [Bool.or_eq_true, decide_eq_true_eq]
      exact le_total _ _)
    (List.range keys.length)
  exact h.imp fun hab => of_decide_eq_true hab

/-! ### Folds of element writes at pairwise-distinct indices -/

theorem length_foldl_set_pairs {α : Type} (ps : List (Nat × α)) (m0 : List α) :
    (ps.foldl (fun m p => m.set p.1 p.2) m0).length = m0.length := by
  induction ps generalizing m0 with
  | nil => rfl
  | cons p rest ih => simp [List.foldl_cons, ih]

theorem foldl_set_pairs_getD_notmem {α : Type} (d : α) (ps : List (Nat × α))
    (m0 : List α) (j : Nat) (h : ∀ p ∈ ps, p.1 ≠ j) :
    (ps.foldl (fun m p => m.set p.1 p.2) m0).getD j d = m0.getD j d := by
  induction ps generalizing m0 with
  | nil => rfl
  | cons p rest ih =>
    simp only [List.foldl_cons]
    rw [ih _ fun q hq => h q (List.mem_cons_of_mem _ hq)]
    rw [List.getD_eq_getElem?_getD, List.getElem?_set_ne (h p (List.mem_cons_self _ _)),
      ← List.getD_eq_getElem?_getD]

theorem foldl_set_pairs_getD_mem {α : Type} (d : α) (ps : List (Nat × α))
    (m0 : List α) (j : Nat) (v : α) (hmem : (j, v) ∈ ps)
    (hnd : (ps.map Prod.fst).Nodup) (hj : j < m0.length) :
    (ps.foldl (fun m p => m.set p.1 p.2) m0).getD j d = v := by
  induction ps generalizing m0 with
  | nil => simp at hmem
  | cons p rest ih =>
    simp only [List.map_cons, List.nodup_cons] at hnd
    rcases List.mem_cons.mp hmem with heq | hmem'
    · obtain rfl : p = (j, v) := heq.symm
      simp only [List.foldl_cons]
      have hne : ∀ q ∈ rest, q.1 ≠ j := by
        intro q hq hq1
        exact hnd.1 (List.mem_map.mpr ⟨q, hq, hq1⟩)
      rw [foldl_set_pairs_getD_notmem d rest _ j hne]
      rw [List.getD_eq_getElem?_getD, List.getElem?_set_self hj, Option.getD_some]
    · simp only [List.foldl_cons]
      refine ih (m0.set p.1 p.2) hmem' hnd.2 ?_
      simpa using hj

theorem foldlM_option_eq_foldl {α β : Type} (f : α → β → α) (g : α → β → Option α)
    (hg : ∀ a b, g a b = some (f a b)) (l : List β) (init : α) :
    l.foldlM g init = some (l.foldl f init) := by
  induction l generalizing init with
  | nil => rfl
  | cons b rest ih => simp [List.foldlM_cons, hg, ih, List.foldl_cons]

theorem range_map_getD_take {α : Type} (d : α) (l : List α) (n : Nat) (h : n ≤ l.length) :
    (List.range n).map (fun i => l.getD i d) = l.take n := by
  apply List.ext_getElem
  · simp [h]
  · intro i h1 h2
    have hi : i < n := by simpa using h1
    have hil : i < l.length := lt_of_lt_of_le hi h
    simp [List.getD_eq_getElem?_getD, List.getElem?_eq_getElem, hil]

theorem range_map_getD_drop {α : Type} (d : α) (l : List α) (n : Nat) :
    (List.range (l.length - n)).map (fun j => l.getD (n + j) d) = l.drop n := by
  apply List.ext_getElem
  · simp
  · intro i h1 h2
    have hi : i < l.length - n := by simpa using h1
    have hil : n + i < l.length := by omega
    simp [List.getD_eq_getElem?_getD, List.getElem?_eq_getElem, hil]

theorem eq_range_map_getD {α : Type} (d : α) (l : List α) :
    (List.range l.length).map (fun i => l.getD i d) = l := by
  rw [range_map_getD_take d l l.length le_rfl, List.take_length]

theorem getD_map_brightness (l : List RGB) (i : Nat) :
    (l.map brightness).getD i 0 = brightness (l.getD i rgb0) := by
  rcases lt_or_ge i l.length with h | h
  · simp [List.getD_eq_getElem?_getD, List.getElem?_eq_getElem, h]
  · rw [List.getD_eq_default _ _ (by simpa using h), List.getD_eq_default _ _ h]
    simp [brightness, rgb0]

/-! ### Structure of the palette mapping -/

theorem domOrder_length (dc : List RGB) : (domOrder dc).length = dc.length := by
  simp [domOrder, argsort_length]

theorem themeOrder_length (cs : List RGB) : (themeOrder cs).length = cs.length := by
  simp [themeOrder, argsort_length]

theorem minLen_eq (dc cs : List RGB) : minLen dc cs = min dc.length cs.length := by
  simp [minLen, domOrder_length, themeOrder_length]

theorem domOrder_getD_lt (dc : List RGB) (i : Nat) (hi : i < (domOrder dc).length) :
    (domOrder dc).getD i 0 < dc.length := by
  have hmem : (domOrder dc).getD i 0 ∈ domOrder dc := by
    rw [List.getD_eq_getElem?_getD, List.getElem?_eq_getElem hi]
    exact List.getElem_mem hi
  have := (mem_argsort _ _).mp hmem
  simpa using this

theorem themeOrder_getD_lt (cs : List RGB) (i : Nat) (hi : i < (themeOrder cs).length) :
    (themeOrder cs).getD i 0 < cs.length := by
  have hmem : (themeOrder cs).getD i 0 ∈ themeOrder cs := by
    rw [List.getD_eq_getElem?_getD, List.getElem?_eq_getElem hi]
    exact List.getElem_mem hi
  have := (mem_argsort _ _).mp hmem
  simpa using this

theorem rankMapping_eq_pairs_fold (dc cs : List RGB) :
    rankMapping dc cs
      = (rankPairs dc cs).foldl (fun m p => m.set p.1 p.2) (dc.map fun _ => rgb0) := by
  rw [rankPairs, List.foldl_map]
  rfl

theorem rankPairs_fst (dc cs : List RGB) :
    (rankPairs dc cs).map Prod.fst = (domOrder dc).take (minLen dc cs) := by
  rw [rankPairs, List.map_map]
  exact range_map_getD_take 0 (domOrder dc) _ (min_le_left _ _)

theorem length_rankMapping (dc cs : List RGB) : (rankMapping dc cs).length = dc.length := by
  rw [rankMapping_eq_pairs_fold, length_foldl_set_pairs]
  simp

theorem getD_rankMapping (dc cs : List RGB) (i : Nat) (hi : i < minLen dc cs) :
    (rankMapping dc cs).getD ((domOrder dc).getD i 0) rgb0
      = cs.getD ((themeOrder cs).getD i 0) rgb0 := by
  rw [rankMapping_eq_pairs_fold]
  apply foldl_set_pairs_getD_mem
  · rw [rankPairs]
    exact List.mem_map.mpr ⟨i, List.mem_range.mpr hi, rfl⟩
  · rw [rankPairs_fst]
    exact (List.take_sublist _ _).nodup (argsort_nodup _)
  · have h1 : (domOrder dc).getD i 0 < dc.length :=
      domOrder_getD_lt dc i (lt_of_lt_of_le hi (min_le_left _ _))
    simpa using h1

theorem excessPairs_fst (dc cs : List RGB) :
    (excessPairs dc cs).map Prod.fst = (domOrder dc).drop (minLen dc cs) := by
  rw [excessPairs, List.map_map]
  exact range_map_getD_drop 0 (domOrder dc) _

theorem excessStep_eq_some (dc cs : List RGB) (hcs : cs ≠ []) (m : List RGB) (j : Nat) :
    excessStep dc cs m j
      = some (m.set ((domOrder dc).getD (minLen dc cs + j) 0)
          (cs.getD ((argminIdx (cs.map
            (fun c => sqDist c (dc.getD ((domOrder dc).getD (minLen dc cs + j) 0) rgb0)))).getD 0)
            rgb0)) := by
  obtain ⟨mi, hmi, _⟩ := argminIdx_spec
    (cs.map (fun c => sqDist c (dc.getD ((domOrder dc).getD (minLen dc cs + j) 0) rgb0)))
    (by simpa using hcs)
  simp only [excessStep, hmi, Option.getD_some]

theorem paletteMapping_eq_some (dc cs : List RGB)
    (h : cs ≠ [] ∨ dc.length ≤ cs.length) :
    paletteMapping dc cs
      = some ((excessPairs dc cs).foldl (fun m p => m.set p.1 p.2) (rankMapping dc cs)) := by
  by_cases hcs : cs = []
  · have hdc : dc.length ≤ cs.length := h.resolve_left (by simp [hcs])
    have hdc0 : dc.length = 0 := by
      rw [hcs] at hdc
      simpa using hdc
    have hrange : (domOrder dc).length - minLen dc cs = 0 := by
      rw [domOrder_length, minLen_eq, hdc0]
      simp
    rw [paletteMapping, hrange, excessPairs, hrange]
    simp
  · rw [paletteMapping]
    rw [foldlM_option_eq_foldl
      (fun m j => m.set ((domOrder dc).getD (minLen dc cs + j) 0)
        (cs.getD ((argminIdx (cs.map
          (fun c => sqDist c (dc.getD ((domOrder dc).getD (minLen dc cs + j) 0) rgb0)))).getD 0)
          rgb0))
      (excessStep dc cs) (excessStep_eq_some dc cs hcs) _ _]
    rw [excessPairs, List.foldl_map]

theorem length_paletteMapping_val (dc cs : List RGB) :
    ((excessPairs dc cs).foldl (fun m p => m.set p.1 p.2) (rankMapping dc cs)).length
      = dc.length := by
  rw [length_foldl_set_pairs, length_rankMapping]

theorem getD_mapping_rank (dc cs : List RGB) (i : Nat) (hi : i < minLen dc cs) :
    ((excessPairs dc cs).foldl (fun m p => m.set p.1 p.2) (rankMapping dc cs)).getD
        ((domOrder dc).getD i 0) rgb0
      = cs.getD ((themeOrder cs).getD i 0) rgb0 := by
  rw [foldl_set_pairs_getD_notmem]
  · exact getD_rankMapping dc cs i hi
  · intro p hp hpj
    have hmemdrop : p.1 ∈ (domOrder dc).drop (minLen dc cs) := by
      rw [← excessPairs_fst]
      exact List.mem_map.mpr ⟨p, hp, rfl⟩
    have hmemtake : (domOrder dc).getD i 0 ∈ (domOrder dc).take (minLen dc cs) := by
      have hi' : i < ((domOrder dc).take (minLen dc cs)).length := by
        simp only [List.length_take]
        exact lt_min hi (lt_of_lt_of_le hi (by rw [minLen]; exact min_le_left _ _))
      have : ((domOrder dc).take (minLen dc cs))[i] = (domOrder dc).getD i 0 := by
        rw [List.getElem_take]
        rw [List.getD_eq_getElem?_getD,
          List.getElem?_eq_getElem (lt_of_lt_of_le hi (by rw [minLen]; exact min_le_left _ _))]
        rfl
      rw [← this]
      exact List.getElem_mem hi'
    exact (List.disjoint_take_drop (argsort_nodup _) le_rfl) hmemtake (hpj ▸ hmemdrop)

theorem getD_mapping_excess (dc cs : List RGB) (i : Nat)
    (hlo : minLen dc cs ≤ i) (hhi : i < (domOrder dc).length) :
    ((excessPairs dc cs).foldl (fun m p => m.set p.1 p.2) (rankMapping dc cs)).getD
        ((domOrder dc).getD i 0) rgb0
      = cs.getD ((argminIdx (cs.map
          (fun c => sqDist c (dc.getD ((domOrder dc).getD i 0) rgb0)))).getD 0) rgb0 := by
  have hj : i - minLen dc cs < (domOrder dc).length - minLen dc cs := by omega
  have hi' : minLen dc cs + (i - minLen dc cs) = i := by omega
  apply foldl_set_pairs_getD_mem
  · rw [excessPairs]
    refine List.mem_map.mpr ⟨i - minLen dc cs, List.mem_range.mpr hj, ?_⟩
    rw [hi']
  · rw [excessPairs_fst]
    exact (List.drop_sublist _ _).nodup (argsort_nodup _)
  · have h1 : (domOrder dc).getD i 0 < dc.length := domOrder_getD_lt dc i hhi
    rw [length_rankMapping]
    exact h1

theorem getD_map_lt {α β : Type} (f : α → β) (l : List α) (d : α) (d' : β) (i : Nat)
    (h : i < l.length) : (l.map f).getD i d' = f (l.getD i d) := by
  simp [List.getD_eq_getElem?_getD, List.getElem?_eq_getElem, h]

theorem argmin_nearest (cs : List RGB) (hcs : cs ≠ []) (ctr : RGB) :
    ∃ m, m < cs.length ∧ (argminIdx (cs.map (fun c => sqDist c ctr))).getD 0 = m ∧
      ∀ j < cs.length, sqDist (cs.getD m rgb0) ctr ≤ sqDist (cs.getD j rgb0) ctr := by
  obtain ⟨mi, hmi, hlt, hmin⟩ := argminIdx_spec (cs.map (fun c => sqDist c ctr))
    (by simpa using hcs)
  have hlt' : mi < cs.length := by simpa using hlt
  refine ⟨mi, hlt', by rw [hmi]; rfl, ?_⟩
  intro j hj
  have h1 := hmin j (by simpa using hj)
  rwa [getD_map_lt _ _ rgb0 _ _ hlt', getD_map_lt _ _ rgb0 _ _ hj] at h1

theorem domOrder_perm (dc : List RGB) : (domOrder dc).Perm (List.range dc.length) := by
  have := argsort_perm (dc.map brightness)
  simpa [domOrder] using this

theorem themeOrder_perm (cs : List RGB) : (themeOrder cs).Perm (List.range cs.length) := by
  have := argsort_perm (cs.map brightness)
  simpa [themeOrder] using this

theorem mapping_perm_of_eq_length (dc cs : List RGB) (h : dc.length = cs.length) :
    ((excessPairs dc cs).foldl (fun m p => m.set p.1 p.2) (rankMapping dc cs)).Perm cs := by
  have hml : minLen dc cs = dc.length := by
    rw [minLen_eq, h]
    simp
  have hep : excessPairs dc cs = [] := by
    rw [excessPairs, domOrder_length, hml]
    simp
  rw [hep]
  simp only [List.foldl_nil]
  have hlen : (rankMapping dc cs).length = dc.length := length_rankMapping dc cs
  have hmid : (domOrder dc).map (fun i => (rankMapping dc cs).getD i rgb0)
      = (themeOrder cs).map (fun i => cs.getD i rgb0) := by
    apply List.ext_getElem
    · rw [List.length_map, List.length_map, domOrder_length, themeOrder_length, h]
    · intro i h1 h2
      have hi1 : i < (domOrder dc).length := by simpa using h1
      have hi2 : i < (themeOrder cs).length := by simpa using h2
      have hgd : (domOrder dc)[i] = (domOrder dc).getD i 0 := by
        rw [List.getD_eq_getElem?_getD, List.getElem?_eq_getElem hi1]
        rfl
      have hgt : (themeOrder cs)[i] = (themeOrder cs).getD i 0 := by
        rw [List.getD_eq_getElem?_getD, List.getElem?_eq_getElem hi2]
        rfl
      rw [List.getElem_map, List.getElem_map, hgd, hgt]
      exact getD_rankMapping dc cs i (by rw [hml]; rw [domOrder_length] at hi1; exact hi1)
  have p0 : (List.range dc.length).map (fun i => (rankMapping dc cs).getD i rgb0)
      = rankMapping dc cs := by
    rw [← hlen]
    exact eq_range_map_getD rgb0 _
  exact ((List.Perm.of_eq p0.symm).trans
      (((domOrder_perm dc).map (fun i => (rankMapping dc cs).getD i rgb0)).symm)).trans
    ((List.Perm.of_eq hmid).trans
      (((themeOrder_perm cs).map (fun i => cs.getD i rgb0)).trans
        (List.Perm.of_eq (eq_range_map_getD rgb0 cs))))

/-- C1: the palette-mapping step of `apply_color_scheme` is rank-based: for
`i < min(K, M)` the `i`-th brightest center is mapped to the `i`-th brightest
palette color; each center ranked at or beyond `min(K, M)` (case `K > M`) is
mapped to a palette color at minimum squared Euclidean distance from its RGB
value; extra palette colors (case `M > K`) are unused; for `K = M` the
assignment is a bijection from centers onto palette colors. -/

theorem c1_rank_based_palette_mapping (dc cs : List RGB)
    (hsucc : cs ≠ [] ∨ dc.length ≤ cs.length) : RankMappingSpec dc cs := by
  refine ⟨_, paletteMapping_eq_some dc cs hsucc, length_paletteMapping_val dc cs,
    domOrder_perm dc, themeOrder_perm cs, ?_, ?_, ?_, ?_, ?_, ?_⟩
  · exact (argsort_sorted (dc.map brightness)).imp fun h => by
      rwa [getD_map_brightness, getD_map_brightness] at h
  · exact (argsort_sorted (cs.map brightness)).imp fun h => by
      rwa [getD_map_brightness, getD_map_brightness] at h
  · intro i hi
    exact getD_mapping_rank dc cs i (by rwa [minLen_eq])
  · intro i hlo hhi
    have hcs : cs ≠ [] := by
      rcases hsucc with h | h
      · exact h
      · exfalso
        have : min dc.length cs.length = dc.length := min_eq_left h
        omega
    rw [getD_mapping_excess dc cs i (by rwa [minLen_eq]) (by rwa [domOrder_length])]
    obtain ⟨m, hm, heq, hmin⟩ :=
      argmin_nearest cs hcs (dc.getD ((domOrder dc).getD i 0) rgb0)
    exact ⟨m, hm, by rw [heq], hmin⟩
  · exact mapping_perm_of_eq_length dc cs
  · intro hKM jdx hjdx
    have hmem : jdx ∈ domOrder dc :=
      (domOrder_perm dc).mem_iff.mpr (List.mem_range.mpr hjdx)
    obtain ⟨i, hilt, hie⟩ := List.mem_iff_getElem.mp hmem
    have hi' : i < min dc.length cs.length := by
      rw [min_eq_left hKM]
      rwa [domOrder_length] at hilt
    have hgd : (domOrder dc).getD i 0 = jdx := by
      rw [List.getD_eq_getElem?_getD, List.getElem?_eq_getElem hilt]
      exact hie
    refine ⟨i, hi', ?_⟩
    rw [← hgd]
    exact getD_mapping_rank dc cs i (by rwa [minLen_eq])

/-- Witness for C1 at a concrete two-center clustering and two-color palette. -/

theorem c1_rank_based_palette_mapping_witness :
    (([((10:ℚ),10,10), ((200:ℚ),200,200)] : List RGB) ≠ [] ∨
      ([((0:ℚ),0,0), ((255:ℚ),255,255)] : List RGB).length
        ≤ ([((10:ℚ),10,10), ((200:ℚ),200,200)] : List RGB).length) ∧
    RankMappingSpec [((0:ℚ),0,0), ((255:ℚ),255,255)] [((10:ℚ),10,10), ((200:ℚ),200,200)] :=
  ⟨Or.inl (by simp), c1_rank_based_palette_mapping _ _ (Or.inl (by simp))⟩

/-- C10: with at least one cluster center, `apply_color_scheme` with an empty
palette fails (the rank range is empty and every center reaches
`np.argmin` over an empty distance array) rather than returning an image. -/

theorem c10_empty_palette_errors (cd : ClusteringData) (pb : Bool)
    (h : 1 ≤ cd.dominant_colors.length) :
    applyColorScheme cd [] pb = none := by
  have hpm : paletteMapping cd.dominant_colors [] = none := by
    rw [paletteMapping]
    have hml : minLen cd.dominant_colors [] = 0 := by
      rw [minLen_eq]
      simp
    obtain ⟨k, hk⟩ : ∃ k, cd.dominant_colors.length = k + 1 :=
      ⟨cd.dominant_colors.length - 1, by omega⟩
    rw [hml, domOrder_length, hk, Nat.sub_zero, List.range_succ_eq_map, List.foldlM_cons]
    have hstep : excessStep cd.dominant_colors [] (rankMapping cd.dominant_colors []) 0
        = none := by
      simp [excessStep, argminIdx]
    rw [hstep]
    rfl
  simp [applyColorScheme, hpm]

/-- Witness for C10 at a one-center clustering. -/

theorem c10_empty_palette_errors_witness :
    1 ≤ (ClusteringData.mk [((0:ℚ),0,0)] [0] [((1:ℚ),2,3)]).dominant_colors.length ∧
    applyColorScheme (ClusteringData.mk [((0:ℚ),0,0)] [0] [((1:ℚ),2,3)]) [] true = none :=
  ⟨by simp, c10_empty_palette_errors _ true (by simp)⟩

/-! ### Brightness preservation (C2) -/

theorem brightness_adjustPixel (o n : RGB) (hcl : scaledInRangeB o n = true)
    (hb : (1/1000000 : ℚ) ≤ brightness n) :
    brightness (adjustPixel o n) = brightness o := by
  have hmax : max (brightness n) (1/1000000 : ℚ) = brightness n := max_eq_left hb
  have hne : brightness n ≠ 0 :=
    ne_of_gt (lt_of_lt_of_le (by norm_num) hb)
  simp only [scaledInRangeB, hmax, Bool.and_eq_true, decide_eq_true_eq] at hcl
  obtain ⟨⟨⟨⟨⟨h1, h2⟩, h3⟩, h4⟩, h5⟩, h6⟩ := hcl
  simp only [adjustPixel, hmax, clip255]
  rw [max_eq_right h1, min_eq_right h2, max_eq_right h3, min_eq_right h4,
    max_eq_right h5, min_eq_right h6]
  have hs : n.1 + n.2.1 + n.2.2 ≠ 0 := by
    intro h0
    exact hne (by simp [brightness, h0])
  simp only [brightness] at hne ⊢
  field_simp
  ring

theorem sum_brightness_preserve (orig : List RGB) : ∀ (newp : List RGB),
    orig.length = newp.length → noClipNeeded orig newp = true →
    (∀ p ∈ newp, (1/1000000 : ℚ) ≤ brightness p) →
    ((brightnessPreserve orig newp).map brightness).sum = (orig.map brightness).sum := by
  induction orig with
  | nil =>
    intro newp hlen _ _
    cases newp with
    | nil => simp [brightnessPreserve]
    | cons n nrest => simp at hlen
  | cons o orest ih =>
    intro newp hlen hcl hb
    cases newp with
    | nil => simp at hlen
    | cons n nrest =>
      simp only [noClipNeeded, List.zip_cons_cons, List.all_cons, Bool.and_eq_true] at hcl
      simp only [brightnessPreserve, List.zipWith_cons_cons, List.map_cons, List.sum_cons]
      rw [brightness_adjustPixel o n hcl.1 (hb n (List.mem_cons_self _ _))]
      have hrec := ih nrest (by simpa using hlen)
        (by simpa [noClipNeeded] using hcl.2)
        (fun p hp => hb p (List.mem_cons_of_mem _ hp))
      rw [brightnessPreserve] at hrec
      rw [hrec]

/-- C2 (amended): when `preserve_brightness` is on, no channel requires
clipping, and no remapped pixel is essentially black (its brightness is at
least the `1e-6` epsilon), the mean per-pixel brightness is preserved — here
exactly, hence within the claimed `1e-3` relative tolerance. -/

theorem c2_brightness_preserved (orig newp : List RGB)
    (hlen : orig.length = newp.length) (hcl : noClipNeeded orig newp = true)
    (hb : ∀ p ∈ newp, (1/1000000 : ℚ) ≤ brightness p) :
    meanBrightness (brightnessPreserve orig newp) = meanBrightness orig ∧
    |meanBrightness (brightnessPreserve orig newp) - meanBrightness orig|
      ≤ (1/1000) * |meanBrightness orig| := by
  have hsum := sum_brightness_preserve orig newp hlen hcl hb
  have hl : (brightnessPreserve orig newp).length = orig.length := by
    simp [brightnessPreserve, hlen]
  have heq : meanBrightness (brightnessPreserve orig newp) = meanBrightness orig := by
    rw [meanBrightness, meanBrightness, hsum, hl]
  refine ⟨heq, ?_⟩
  rw [heq, sub_self, abs_zero]
  positivity

/-- C2 counterexample: a pixel remapped to pure black needs no clipping
(every scaled channel is `0`), yet mean brightness drops from `100` to `0`,
far outside the `1e-3` relative tolerance. -/

theorem c2_counterexample :
    noClipNeeded [((100:ℚ),100,100)] [((0:ℚ),0,0)] = true ∧
    ¬ (|meanBrightness (brightnessPreserve [((100:ℚ),100,100)] [((0:ℚ),0,0)])
          - meanBrightness [((100:ℚ),100,100)]|
        ≤ (1/1000) * |meanBrightness [((100:ℚ),100,100)]|) := by
  constructor
  · simp [noClipNeeded, scaledInRangeB, brightness]
  · simp only [meanBrightness, brightnessPreserve, adjustPixel, brightness, clip255,
      List.zipWith_cons_cons, List.zipWith_nil_right, List.map_cons, List.map_nil,
      List.sum_cons, List.sum_nil, List.length_cons, List.length_nil]
    norm_num

/-- Witness for the amended C2 at a concrete one-pixel matrix. -/

theorem c2_brightness_preserved_witness :
    noClipNeeded [((30:ℚ),30,30)] [((10:ℚ),20,30)] = true ∧
    meanBrightness (brightnessPreserve [((30:ℚ),30,30)] [((10:ℚ),20,30)])
      = meanBrightness [((30:ℚ),30,30)] :=
  ⟨by simp [noClipNeeded, scaledInRangeB, brightness]; norm_num,
    (c2_brightness_preserved _ _ (by simp)
      (by simp [noClipNeeded, scaledInRangeB, brightness]; norm_num)
      (by intro p hp; simp at hp; rw [hp]; norm_num [brightness])).1⟩

/-! ### LRU cache claims (C9, C3) -/

theorem dictDelete_eq_of_not_contains (d : List (String × Img)) (k : String)
    (h : dictContains d k = false) : dictDelete d k = d := by
  induction d with
  | nil => rfl
  | cons p rst ih =>
    simp only [dictContains, Bool.or_eq_false_iff] at h
    simp [dictDelete, h.1, ih h.2]

theorem length_dictDelete_pos (d : List (String × Img)) (k : String)
    (hnd : (d.map Prod.fst).Nodup) (h : dictContains d k = true) :
    d.length = (dictDelete d k).length + 1 := by
  induction d with
  | nil => simp [dictContains] at h
  | cons p rst ih =>
    simp only [List.map_cons, List.nodup_cons] at hnd
    by_cases hp : (p.1 == k) = true
    · have hpk : p.1 = k := by simpa using hp
      have hkr : dictContains rst k = false := by
        rw [← Bool.not_eq_true]
        intro hc
        exact hnd.1 (hpk ▸ (dictContains_iff_mem _ _).mp hc)
      simp [dictDelete, hp, dictDelete_eq_of_not_contains rst k hkr]
    · have h2 : dictContains rst k = true := by
        simp only [dictContains, Bool.or_eq_true] at h
        exact h.resolve_left hp
      simp [dictDelete, hp, ← ih hnd.2 h2]

theorem cacheInvariantSpec_of_inv (s : ImageCache) (h : s.Inv) : CacheInvariantSpec s := by
  obtain ⟨hnd, hperm, hlen⟩ := h
  have haolen : s.access_order.length = s.cache.length := by
    simpa using hperm.length_eq.symm
  refine ⟨hnd, ?_, haolen, hlen, ?_, ?_⟩
  · intro k
    rw [dictContains_iff_mem]
    exact hperm.symm.mem_iff
  · intro k hk
    simp only [ImageCache.get, hk, if_true]
    exact List.getLast?_concat _
  · intro k v hC
    by_cases hck : dictContains s.cache k = true
    · simp only [ImageCache.put, hck, if_true]
      exact List.getLast?_concat _
    · simp only [Bool.not_eq_true] at hck
      simp only [ImageCache.put, hck, Bool.false_eq_true, if_false]
      by_cases hfull : s.max_size ≤ s.cache.length
      · simp only [hfull, if_true]
        cases hao : s.access_order with
        | nil =>
          exfalso
          rw [hao] at haolen
          simp at haolen
          omega
        | cons oldest rest => exact List.getLast?_concat _
      · simp only [hfull, if_false]
        exact List.getLast?_concat _

/-- C9: every sequence of `get`/`put` operations from a fresh cache preserves
the structural invariant. -/

theorem c9_cache_invariant (C : Nat) (ops : List CacheOp) :
    CacheInvariantSpec ((ImageCache.init C).run ops) :=
  cacheInvariantSpec_of_inv _ (ImageCache.inv_run _ _ (ImageCache.inv_init C))

/-- Witness for C9 on a concrete operation sequence. -/

theorem c9_cache_invariant_witness :
    CacheInvariantSpec ((ImageCache.init 2).run
      [CacheOp.put "a" 0, CacheOp.put "b" 1, CacheOp.get "a"]) :=
  c9_cache_invariant 2 [CacheOp.put "a" 0, CacheOp.put "b" 1, CacheOp.get "a"]

/-- C3: from any reachable cache state at capacity, a `put` of a fresh key
evicts exactly the least-recently-used key (the head of `access_order`); a
`get` of a stored key just before the `put` protects that key (capacity
permitting, i.e. `C ≥ 2`); a `put` of a present key refreshes recency and
evicts nothing. -/

theorem c3_lru_eviction (s : ImageCache) (hreach : s.Reachable)
    (hfull : s.cache.length = s.max_size) (hC : 1 ≤ s.max_size)
    (k' : String) (v : Img) (hk' : dictContains s.cache k' = false) :
    (∀ k, dictContains (s.put k' v).cache k = true ↔
      (k = k' ∨ (dictContains s.cache k = true ∧ k ≠ s.access_order.headD ""))) ∧
    (s.put k' v).cache.length = s.max_size ∧
    (∀ k, dictContains s.cache k = true → 2 ≤ s.max_size →
      dictContains (((s.get k).2).put k' v).cache k = true) ∧
    (∀ k w, dictContains s.cache k = true →
      (∀ k2, dictContains (s.put k w).cache k2 = dictContains s.cache k2) ∧
      (s.put k w).cache.length = s.cache.length ∧
      (s.put k w).access_order = s.access_order.erase k ++ [k]) := by
  obtain ⟨hnd, hperm, hlen⟩ := ImageCache.inv_of_reachable s hreach
  have hkeysnd : (s.cache.map Prod.fst).Nodup := hperm.nodup_iff.mpr hnd
  have haolen : s.access_order.length = s.cache.length := by
    simpa using hperm.length_eq.symm
  obtain ⟨oldest, rest, hao⟩ : ∃ o r, s.access_order = o :: r := by
    cases h : s.access_order with
    | nil =>
      exfalso
      rw [h] at haolen
      simp at haolen
      omega
    | cons o r => exact ⟨o, r, rfl⟩
  have hfull' : s.max_size ≤ s.cache.length := le_of_eq hfull.symm
  have holdmem : oldest ∈ s.access_order := by
    rw [hao]
    exact List.mem_cons_self _ _
  have holdc : dictContains s.cache oldest = true :=
    (dictContains_iff_mem _ _).mpr (hperm.mem_iff.mpr holdmem)
  have hput : (s.put k' v).cache = dictSet (dictDelete s.cache oldest) k' v := by
    simp only [ImageCache.put, hk', Bool.false_eq_true, if_false, hfull', if_true, hao]
  have hput_ao : (s.put k' v).access_order = rest ++ [k'] := by
    simp only [ImageCache.put, hk', Bool.false_eq_true, if_false, hfull', if_true, hao]
  have hhead : s.access_order.headD "" = oldest := by rw [hao]; rfl
  refine ⟨?_, ?_, ?_, ?_⟩
  · intro k
    rw [hput, hhead]
    by_cases hkk' : k = k'
    · subst hkk'
      simp [dictContains_dictSet_self]
    · rw [dictContains_dictSet_ne _ _ _ _ hkk', dictContains_dictDelete]
      constructor
      · intro hc
        simp only [Bool.and_eq_true, Bool.not_eq_true', beq_eq_false_iff_ne] at hc
        exact Or.inr hc
      · rintro (hc | hc)
        · exact absurd hc hkk'
        · simp only [Bool.and_eq_true, Bool.not_eq_true', beq_eq_false_iff_ne]
          exact hc
  · rw [hput]
    have hdelc : dictContains (dictDelete s.cache oldest) k' = false := by
      rw [dictContains_dictDelete, hk']
      simp
    rw [length_dictSet_neg _ _ _ hdelc]
    have := length_dictDelete_pos s.cache oldest hkeysnd holdc
    omega
  · intro k hk hC2
    have hget_c : ((s.get k).2).cache = s.cache := by
      simp only [ImageCache.get, hk, if_true]
    have hget_ao : ((s.get k).2).access_order = s.access_order.erase k ++ [k] := by
      simp only [ImageCache.get, hk, if_true]
    have hget_ms : ((s.get k).2).max_size = s.max_size := by
      simp only [ImageCache.get, hk, if_true]
    have hkao : k ∈ s.access_order := hperm.mem_iff.mp ((dictContains_iff_mem _ _).mp hk)
    have herlen : (s.access_order.erase k).length + 1 = s.access_order.length := by
      rw [List.length_erase_of_mem hkao]
      omega
    obtain ⟨o2, r2, her⟩ : ∃ o r, s.access_order.erase k = o :: r := by
      cases h : s.access_order.erase k with
      | nil =>
        exfalso
        rw [h] at herlen
        simp at herlen
        omega
      | cons o r => exact ⟨o, r, rfl⟩
    have ho2mem : o2 ∈ s.access_order.erase k := by
      rw [her]
      exact List.mem_cons_self _ _
    have ho2k : o2 ≠ k := fun h => hnd.not_mem_erase (h ▸ ho2mem)
    have hkstill : dictContains ((s.get k).2).cache k' = false := by rw [hget_c]; exact hk'
    have hfull2 : ((s.get k).2).max_size ≤ ((s.get k).2).cache.length := by
      rw [hget_c, hget_ms]
      exact hfull'
    have hput2 : (((s.get k).2).put k' v).cache
        = dictSet (dictDelete ((s.get k).2).cache o2) k' v := by
      simp only [ImageCache.put, hkstill, Bool.false_eq_true, if_false, hfull2, if_true,
        hget_ao, her, List.cons_append]
    rw [hput2, hget_c]
    have hkne : k ≠ k' := by
      intro h
      rw [h] at hk
      rw [hk] at hk'
      simp at hk'
    rw [dictContains_dictSet_ne _ _ _ _ hkne, dictContains_dictDelete, hk]
    have hko2 : (k == o2) = false := beq_eq_false_iff_ne.mpr (Ne.symm ho2k)
    simp [hko2]
  · intro k w hk
    have hc : (s.put k w).cache = dictSet s.cache k w := by
      simp only [ImageCache.put, hk, if_true]
    have hao' : (s.put k w).access_order = s.access_order.erase k ++ [k] := by
      simp only [ImageCache.put, hk, if_true]
    refine ⟨?_, ?_, hao'⟩
    · intro k2
      by_cases hk2 : k2 = k
      · subst hk2
        rw [hc, dictContains_dictSet_self, hk]
      · rw [hc, dictContains_dictSet_ne _ _ _ _ hk2]
    · rw [hc, length_dictSet_pos _ _ _ hk]

/-- Witness for C3 on a concrete reachable state at capacity 2. -/

theorem c3_lru_eviction_witness :
    ((ImageCache.init 2).run [CacheOp.put "a" 10, CacheOp.put "b" 20]).Reachable ∧
    ((ImageCache.init 2).run [CacheOp.put "a" 10, CacheOp.put "b" 20]).cache.length
      = ((ImageCache.init 2).run [CacheOp.put "a" 10, CacheOp.put "b" 20]).max_size ∧
    1 ≤ ((ImageCache.init 2).run [CacheOp.put "a" 10, CacheOp.put "b" 20]).max_size ∧
    dictContains ((ImageCache.init 2).run
      [CacheOp.put "a" 10, CacheOp.put "b" 20]).cache "c" = false ∧
    ((∀ k, dictContains (((ImageCache.init 2).run
        [CacheOp.put "a" 10, CacheOp.put "b" 20]).put "c" 30).cache k = true ↔
        (k = "c" ∨ (dictContains ((ImageCache.init 2).run
          [CacheOp.put "a" 10, CacheOp.put "b" 20]).cache k = true ∧
          k ≠ ((ImageCache.init 2).run
            [CacheOp.put "a" 10, CacheOp.put "b" 20]).access_order.headD ""))) ∧
      (((ImageCache.init 2).run [CacheOp.put "a" 10, CacheOp.put "b" 20]).put "c" 30).cache.length
        = ((ImageCache.init 2).run [CacheOp.put "a" 10, CacheOp.put "b" 20]).max_size ∧
      (∀ k, dictContains ((ImageCache.init 2).run
          [CacheOp.put "a" 10, CacheOp.put "b" 20]).cache k = true →
        2 ≤ ((ImageCache.init 2).run [CacheOp.put "a" 10, CacheOp.put "b" 20]).max_size →
        dictContains (((((ImageCache.init 2).run
          [CacheOp.put "a" 10, CacheOp.put "b" 20]).get k).2).put "c" 30).cache k = true) ∧
      (∀ k w, dictContains ((ImageCache.init 2).run
          [CacheOp.put "a" 10, CacheOp.put "b" 20]).cache k = true →
        (∀ k2, dictContains (((ImageCache.init 2).run
            [CacheOp.put "a" 10, CacheOp.put "b" 20]).put k w).cache k2
          = dictContains ((ImageCache.init 2).run
            [CacheOp.put "a" 10, CacheOp.put "b" 20]).cache k2) ∧
        (((ImageCache.init 2).run [CacheOp.put "a" 10, CacheOp.put "b" 20]).put k w).cache.length
          = ((ImageCache.init 2).run [CacheOp.put "a" 10, CacheOp.put "b" 20]).cache.length ∧
        (((ImageCache.init 2).run [CacheOp.put "a" 10, CacheOp.put "b" 20]).put k w).access_order
          = ((ImageCache.init 2).run
            [CacheOp.put "a" 10, CacheOp.put "b" 20]).access_order.erase k ++ [k])) :=
  ⟨⟨2, [CacheOp.put "a" 10, CacheOp.put "b" 20], rfl⟩, by decide, by decide, by decide,
    c3_lru_eviction _ ⟨2, [CacheOp.put "a" 10, CacheOp.put "b" 20], rfl⟩
      (by decide) (by decide) "c" 30 (by decide)⟩

/-! ### Job orchestration claims (C4–C8) -/

/-- C4: on completion of theme `T'`'s job the result is always written into
the cache under `T'`'s key, the preview is updated only if `T'` is still the
current target; in the A-then-B scenario, A's completion leaves B's displayed
state and pending target untouched while A's result sits in the cache. -/

theorem c4_stale_result_discard (s : App) (A B : String) (imgA : Img)
    (hAB : A ≠ B) (himg : s.has_original_image = true)
    (hcd : s.clustering_params ≠ none)
    (hroom : s.image_cache.cache.length < s.image_cache.max_size)
    (hA : dictContains s.image_cache.cache A = false)
    (hB : dictContains s.image_cache.cache B = false) :
    (∀ (w : App) (t : String) (img : Img),
      (w.updateProcessedTheme t img).image_cache = w.image_cache.put t img ∧
      (w.current_processing_theme ≠ some t →
        (w.updateProcessedTheme t img).displayed = w.displayed) ∧
      (w.current_processing_theme = some t →
        (w.updateProcessedTheme t img).displayed = some (t, img))) ∧
    (((s.loadThemeImage A).loadThemeImage B).updateProcessedTheme A imgA).displayed
      = ((s.loadThemeImage A).loadThemeImage B).displayed ∧
    dictGet ((((s.loadThemeImage A).loadThemeImage B).updateProcessedTheme A imgA)).image_cache.cache A
      = some imgA ∧
    (((s.loadThemeImage A).loadThemeImage B).updateProcessedTheme A imgA).current_processing_theme
      = some B := by
  have hgen : ∀ (w : App) (t : String) (img : Img),
      (w.updateProcessedTheme t img).image_cache = w.image_cache.put t img ∧
      (w.current_processing_theme ≠ some t →
        (w.updateProcessedTheme t img).displayed = w.displayed) ∧
      (w.current_processing_theme = some t →
        (w.updateProcessedTheme t img).displayed = some (t, img)) := by
    intro w t img
    by_cases hcur : w.current_processing_theme = some t
    · simp [App.updateProcessedTheme, hcur]
    · simp [App.updateProcessedTheme, hcur]
  have h1 : s.loadThemeImage A = { s with current_processing_theme := some A } := by
    rw [App.loadThemeImage, if_neg (by simp [himg, hcd])]
    have hg : s.image_cache.get A = (none, s.image_cache) := by
      simp [ImageCache.get, hA]
    rw [hg]
  have h2 : (s.loadThemeImage A).loadThemeImage B
      = { s with current_processing_theme := some B } := by
    rw [h1, App.loadThemeImage, if_neg (by simp [himg, hcd])]
    have hg : s.image_cache.get B = (none, s.image_cache) := by
      simp [ImageCache.get, hB]
    simp only []
    rw [hg]
  have h3 : ((s.loadThemeImage A).loadThemeImage B).updateProcessedTheme A imgA
      = { s with current_processing_theme := some B,
                 image_cache := s.image_cache.put A imgA } := by
    rw [h2, App.updateProcessedTheme]
    have : ¬ (({ s with current_processing_theme := some B } : App).current_processing_theme
        = some A) := by
      simp
      exact Ne.symm hAB
    rw [if_neg this]
  refine ⟨hgen, ?_, ?_, ?_⟩
  · rw [h3, h2]
  · rw [h3]
    have hput : (s.image_cache.put A imgA).cache = dictSet s.image_cache.cache A imgA := by
      simp only [ImageCache.put, hA, Bool.false_eq_true, if_false,
        if_neg (by omega : ¬ s.image_cache.max_size ≤ s.image_cache.cache.length)]
    rw [hput]
    exact dictGet_dictSet_self _ _ _
  · rw [h3]

/-- Witness for C4: select theme "A", then "B", then complete "A"'s job. -/

theorem c4_stale_result_discard_witness :
    ("A" ≠ "B") ∧ sampleApp.has_original_image = true ∧
    sampleApp.clustering_params ≠ none ∧
    sampleApp.image_cache.cache.length < sampleApp.image_cache.max_size ∧
    dictContains sampleApp.image_cache.cache "A" = false ∧
    dictContains sampleApp.image_cache.cache "B" = false ∧
    (((sampleApp.loadThemeImage "A").loadThemeImage "B").updateProcessedTheme "A" 9).displayed
      = ((sampleApp.loadThemeImage "A").loadThemeImage "B").displayed ∧
    dictGet ((((sampleApp.loadThemeImage "A").loadThemeImage "B").updateProcessedTheme
      "A" 9)).image_cache.cache "A" = some 9 ∧
    (((sampleApp.loadThemeImage "A").loadThemeImage "B").updateProcessedTheme
      "A" 9).current_processing_theme = some "B" :=
  ⟨by decide, by decide, by decide, by decide, by decide, by decide,
    (c4_stale_result_discard sampleApp "A" "B" 9 (by decide) (by decide) (by decide)
      (by decide) (by decide) (by decide)).2.1,
    (c4_stale_result_discard sampleApp "A" "B" 9 (by decide) (by decide) (by decide)
      (by decide) (by decide) (by decide)).2.2.1,
    (c4_stale_result_discard sampleApp "A" "B" 9 (by decide) (by decide) (by decide)
      (by decide) (by decide) (by decide)).2.2.2⟩

/-- C5 (evaluating the code at the failing input): applying settings that
change the sampling size from 50000 to 60000 updates the parameter but
leaves the old cache entries in place and never recomputes the clustering
data — the invalidation branch compares the panel's fields right after
assigning them from the same values, so it can never fire. -/

theorem c5_parameter_change_keeps_stale_cache :
    (sampleApp.applySettings (some "themeB") 60000 8 100 true).sampling_size = 60000 ∧
    dictContains (sampleApp.applySettings
      (some "themeB") 60000 8 100 true).image_cache.cache "themeA" = true ∧
    dictGet (sampleApp.applySettings
      (some "themeB") 60000 8 100 true).image_cache.cache "themeA" = some 1 ∧
    (sampleApp.applySettings (some "themeB") 60000 8 100 true).clustering_params
      = some (50000, 8) := by
  refine ⟨by decide, by decide, by decide, by decide⟩

/-- C6 counterexample: a completed job for theme "gruvbox" is stored under
the key `"gruvbox"` alone, not under the
`{theme}_{method}_{params}` string the specification prescribes. -/

theorem c6_key_format_counterexample :
    ((sampleApp.updateProcessedTheme "gruvbox" 7).image_cache.cache.map Prod.fst)
      = ["themeA", "themeB", "gruvbox"] ∧
    specFormatCacheKey "gruvbox" "kmeans" 50000 8 100 42 true
      = "gruvbox_kmeans_50000_8_100_42_True" ∧
    ("gruvbox" : String) ≠ specFormatCacheKey "gruvbox" "kmeans" 50000 8 100 42 true ∧
    kmeansGetCacheKey 50000 8 100 42 true = "kmeans_50000_8_100_42_True" := by
  refine ⟨by decide, by decide, by decide, by decide⟩

/-- C6 (amended): the application stores and looks results up under the bare
theme identifier; the extractor's `get_cache_key` yields
`kmeans_{sample_size}_{n_colors}_{max_iterations}_{random_state}_{preserve_brightness}`
(no theme identifier) and is not used on the cache path. -/

theorem c6_cache_key_amended :
    (∀ (w : App) (t : String) (img : Img),
      (w.updateProcessedTheme t img).image_cache = w.image_cache.put t img) ∧
    (∀ (w : App) (t : String), w.has_original_image = true → w.clustering_params ≠ none →
      (w.loadThemeImage t).image_cache = (w.image_cache.get t).2) ∧
    (∀ (ss nc mi rs : Nat) (pb : Bool), kmeansGetCacheKey ss nc mi rs pb
      = "kmeans_" ++ toString ss ++ "_" ++ toString nc ++ "_" ++ toString mi ++ "_"
        ++ toString rs ++ "_" ++ (if pb then "True" else "False")) := by
  refine ⟨?_, ?_, fun ss nc mi rs pb => rfl⟩
  · intro w t img
    by_cases hcur : w.current_processing_theme = some t
    · simp [App.updateProcessedTheme, hcur]
    · simp [App.updateProcessedTheme, hcur]
  · intro w t himg hcd
    rw [App.loadThemeImage, if_neg (by simp [himg, hcd])]
    rcases hg : w.image_cache.get t with ⟨o, c1⟩
    cases o
    · simp [hg]
    · simp [hg]

/-- Witness for the amended C6 at a concrete state and theme. -/

theorem c6_cache_key_amended_witness :
    sampleApp.has_original_image = true ∧ sampleApp.clustering_params ≠ none ∧
    (sampleApp.loadThemeImage "x").image_cache = (sampleApp.image_cache.get "x").2 ∧
    (sampleApp.updateProcessedTheme "x" 3).image_cache = sampleApp.image_cache.put "x" 3 :=
  ⟨by decide, by decide, c6_cache_key_amended.2.1 sampleApp "x" (by decide) (by decide),
    c6_cache_key_amended.1 sampleApp "x" 3⟩

/-- C7 counterexample: `compute_image_clusters` itself performs no input
validation — called with `n_colors = 0` it runs to a normal result (any
failure would arise later inside the external clustering library), instead
of failing with an InvalidInput rejection. -/

theorem c7_no_validation_counterexample :
    computeImageClusters (fun _ _ _ _ => []) [] [((0:ℚ),0,0)] 1 0
      = Except.ok ⟨[((0:ℚ),0,0)], [0], []⟩ ∧
    computeImageClusters (fun _ _ _ _ => []) [] [((0:ℚ),0,0)] 1 0
      ≠ Except.error ExtractError.invalidInput := by
  have h1 : computeImageClusters (fun _ _ _ _ => ([] : List RGB)) [] [((0:ℚ),0,0)] 1 0
      = Except.ok ⟨[((0:ℚ),0,0)], [0], []⟩ := rfl
  refine ⟨h1, ?_⟩
  rw [h1]
  simp

/-- C7 (amended): the application's `apply_settings` rejects out-of-range
parameters — in particular any `n_colors < 1` or `sample_size < 1` —
synchronously, before any recomputation or job dispatch, leaving the state
unchanged; `compute_image_clusters` itself never raises an InvalidInput
error (it performs no validation). -/

theorem c7_synchronous_rejection (s : App) (ct : Option String)
    (ss cc mi : Nat) (pb : Bool) (h : cc < 1 ∨ ss < 1) :
    s.applySettings ct ss cc mi pb = s ∧
    ∀ (fit : List RGB → Nat → Nat → Nat → List RGB) (rng : List Nat) (px : List RGB)
      (ss' nc : Nat), ∃ r, computeImageClusters fit rng px ss' nc = Except.ok r := by
  constructor
  · rcases h with h | h
    · rw [App.applySettings]
      by_cases h1 : ss < MIN_SAMPLING_SIZE ∨ MAX_SAMPLING_SIZE < ss
      · rw [if_pos h1]
      · rw [if_neg h1, if_pos (Or.inl (by rw [MIN_COLOR_COUNT]; omega))]
    · rw [App.applySettings, if_pos (Or.inl (by rw [MIN_SAMPLING_SIZE]; omega))]
  · intro fit rng px ss' nc
    exact ⟨_, rfl⟩

/-- Witness for the amended C7: `n_colors = 0` is rejected with the state
retained. -/

theorem c7_synchronous_rejection_witness :
    ((0:Nat) < 1 ∨ (50000:Nat) < 1) ∧
    sampleApp.applySettings (some "themeB") 50000 0 100 true = sampleApp :=
  ⟨Or.inl (by decide),
    (c7_synchronous_rejection sampleApp (some "themeB") 50000 0 100 true
      (Or.inl (by decide))).1⟩

/-- C8: the clustering the application runs is independent of the configured
`max_iterations` and `random_state`: `compute_image_clusters` receives only
`sampling_size` and `color_count` and invokes the fit with the hard-coded
`random_state = 42`, `max_iter = 100`; with no subsampling the result (and
hence every recolored image derived from it) is identical across any two
configurations agreeing on `sampling_size` and `color_count`. -/

theorem c8_params_do_not_affect_clustering
    (fit fit' : List RGB → Nat → Nat → Nat → List RGB) (rng rng' : List Nat)
    (pixels : List RGB) (s1 s2 : App)
    (hss : s1.sampling_size = s2.sampling_size) (hcc : s1.color_count = s2.color_count)
    (hfit : ∀ sp k, fit sp k 42 100 = fit' sp k 42 100)
    (hnosub : pixels.length ≤ s1.sampling_size) :
    s1.loadOriginalClusters fit rng pixels = s2.loadOriginalClusters fit' rng' pixels ∧
    (∀ (cs : List RGB) (pb : Bool) (cd cd' : ClusteringData),
      s1.loadOriginalClusters fit rng pixels = Except.ok cd →
      s2.loadOriginalClusters fit' rng' pixels = Except.ok cd' →
      applyColorScheme cd cs pb = applyColorScheme cd' cs pb) := by
  have hmain : s1.loadOriginalClusters fit rng pixels
      = s2.loadOriginalClusters fit' rng' pixels := by
    rw [App.loadOriginalClusters, App.loadOriginalClusters, ← hss, ← hcc]
    have hcond : ¬ (s1.sampling_size < pixels.length) := by omega
    simp only [computeImageClusters, if_neg hcond]
    rw [hfit]
  refine ⟨hmain, ?_⟩
  intro cs pb cd cd' h1 h2
  rw [h1, h2] at hmain
  injection hmain with h3
  rw [h3]

/-- Witness for C8: two configurations differing in `max_iterations` and
`random_state`, two different rng oracles, and two fits agreeing only on the
`(42, 100)` slice. -/

theorem c8_params_do_not_affect_clustering_witness :
    sampleApp.sampling_size = ({ sampleApp with max_iterations := 500, random_state := 7 } : App).sampling_size ∧
    sampleApp.color_count = ({ sampleApp with max_iterations := 500, random_state := 7 } : App).color_count ∧
    (∀ (sp : List RGB) (k : Nat),
      (fun (_ : List RGB) (k rs _ : Nat) =>
        if rs = 42 then List.replicate k rgb0 else []) sp k 42 100
      = (fun (_ : List RGB) (k _ mi : Nat) =>
        if mi = 100 then List.replicate k rgb0 else [((1:ℚ),1,1)]) sp k 42 100) ∧
    ([((0:ℚ),0,0)] : List RGB).length ≤ sampleApp.sampling_size ∧
    sampleApp.loadOriginalClusters
        (fun (_ : List RGB) (k rs _ : Nat) => if rs = 42 then List.replicate k rgb0 else [])
        [0] [((0:ℚ),0,0)]
      = ({ sampleApp with max_iterations := 500, random_state := 7 } : App).loadOriginalClusters
        (fun (_ : List RGB) (k _ mi : Nat) =>
          if mi = 100 then List.replicate k rgb0 else [((1:ℚ),1,1)])
        [] [((0:ℚ),0,0)] :=
  ⟨rfl, rfl, fun sp k => rfl, by decide,
    (c8_params_do_not_affect_clustering
      (fun (_ : List RGB) (k rs _ : Nat) => if rs = 42 then List.replicate k rgb0 else [])
      (fun (_ : List RGB) (k _ mi : Nat) =>
        if mi = 100 then List.replicate k rgb0 else [((1:ℚ),1,1)])
      [0] [] [((0:ℚ),0,0)] sampleApp
      ({ sampleApp with max_iterations := 500, random_state := 7 })
      rfl rfl (fun sp k => rfl) (by decide)).1⟩

end Colorschemer
